import Mathlib

/-
Verification of the nohumanallowed proof-of-work challenge protocol
(packages/core/src/client.ts and packages/core/src/index.ts).

The embedding is a shallow one:

* JavaScript numbers are modelled by `JSNum` (a finite rational, NaN, or an
  infinity); integral wall-clock times are modelled as `Int`.
* Dynamically typed inputs that the code type-checks at runtime are modelled
  by `JSVal`.
* The SHA-256 digest and HMAC-SHA256 primitives are external collaborators
  in the source (`crypto`), so they are fields of an `Env` record; no claim
  depends on their internal behaviour.
* `timingSafeEqual`-based comparison is modelled as string equality
  (`safeCompare`), which is its functional behaviour.
* Strings are processed through their underlying character lists
  (`jsSplit`, `strStartsWith`, `strTake`, base64 and UTF-8 codecs below)
  so that every definition evaluates inside the kernel.
* Functions of the source that can throw are modelled with `Except`;
  functions that the source guarantees never to throw are total functions
  returning their tagged result records.
-/

set_option maxRecDepth 40000
set_option maxHeartbeats 2000000

namespace NHA

/-- Model of a JavaScript number: a finite rational, NaN, or a signed infinity. -/
inductive JSNum where
  | fin (q : ℚ)
  | nan
  | posInf
  | negInf
deriving DecidableEq

/-- Model of Number.isFinite. -/
def JSNum.isFinite : JSNum → Bool
  | .fin _ => true
  | _ => false

/-- Model of a dynamically typed JavaScript value, as far as the runtime type
checks of the source observe it. -/
inductive JSVal where
  | undef
  | nullv
  | boolv (b : Bool)
  | num (n : JSNum)
  | str (s : String)
  | obj
deriving DecidableEq

/-- Decimal digit character, for digits 0 through 9. -/
def digitChar : Nat → Char
  | 0 => '0'
  | 1 => '1'
  | 2 => '2'
  | 3 => '3'
  | 4 => '4'
  | 5 => '5'
  | 6 => '6'
  | 7 => '7'
  | 8 => '8'
  | 9 => '9'
  | _ => '0'

/-- Big-endian decimal rendering of a natural number, fuelled so that it is
structurally recursive (the fuel is always sufficient: a number has at most
as many digits as its value plus one). -/
def decRenderAux : Nat → Nat → List Char
  | 0, _ => []
  | fuel + 1, n =>
    if n < 10 then [digitChar n]
    else decRenderAux fuel (n / 10) ++ [digitChar (n % 10)]

/-- Model of JavaScript default decimal formatting of a non-negative integer. -/
def decRender (n : Nat) : String := ⟨decRenderAux (n + 1) n⟩

/-- Model of JavaScript default decimal formatting of an integer. -/
def intRender (i : Int) : String :=
  if i < 0 then "-" ++ decRender i.natAbs else decRender i.toNat

/-- Model of JavaScript `String(n)` for a number `n`.  It is exact for
integral finite values, NaN and the infinities; non-integral finite values
are rendered by a placeholder, which no claim exercises (the protocol only
ever stringifies integral numbers). -/
def jsNumToString : JSNum → String
  | .fin q => if q.den = 1 then intRender q.num else "nonintegral"
  | .nan => "NaN"
  | .posInf => "Infinity"
  | .negInf => "-Infinity"

/-- Model of JavaScript `String(v)`. -/
def jsValToString : JSVal → String
  | .undef => "undefined"
  | .nullv => "null"
  | .boolv b => if b then "true" else "false"
  | .num n => jsNumToString n
  | .str s => s
  | .obj => "object"

/-- Truthiness of an optional string, as JavaScript `if (s)` sees it:
`undefined` and the empty string are falsy. -/
def optStrTruthy : Option String → Bool
  | none => false
  | some s => !(s == "")

/-- Kernel-evaluable model of `String.startsWith`. -/
def strStartsWith (s p : String) : Bool := p.data.isPrefixOf s.data

/-- Kernel-evaluable model of `String.slice(0, n)` / `String.take`. -/
def strTake (s : String) (n : Nat) : String := ⟨s.data.take n⟩

/-- External cryptographic collaborators of the core: a hex-encoded SHA-256
digest and a hex-encoded HMAC-SHA256 (keyed by its first argument). -/
structure Env where
  sha : String → String
  hmacHex : String → String → String

/-- Model of the source's `hmacSign(payload, secret, length)`: the hex HMAC
digest truncated to `length` characters. -/
def hmacSign (E : Env) (payload secret : String) (length : Nat) : String :=
  strTake (E.hmacHex secret payload) length

/-- Model of the source's `safeCompare`: functionally, equality of the two
strings (the source performs it in constant time via `timingSafeEqual`). -/
def safeCompare (a b : String) : Bool := a == b

/-- Lowercase hexadecimal digit character, for digits 0 through 15. -/
def hexDigit : Nat → Char
  | 10 => 'a'
  | 11 => 'b'
  | 12 => 'c'
  | 13 => 'd'
  | 14 => 'e'
  | 15 => 'f'
  | n => digitChar n

/-- Two lowercase hex characters of one byte (`toString(16).padStart(2,'0')`). -/
def byteHex (b : Nat) : List Char := [hexDigit (b / 16 % 16), hexDigit (b % 16)]

/-- Hex encoding of a byte list, as `Buffer.toString('hex')` produces it. -/
def hexChars : List Nat → List Char
  | [] => []
  | b :: bs => byteHex b ++ hexChars bs

/-- Hex encoding of a byte list as a string. -/
def hexEncode (bs : List Nat) : String := ⟨hexChars bs⟩

/-- String of `n` ASCII zero characters (`'0'.repeat n`). -/
def zeros (n : Nat) : String := ⟨List.replicate n '0'⟩

/-- Result record of the solver.  The wall-clock fields `timeMs` and
`hashRate` of the source are ambient-time measurements and are not modelled. -/
structure SolveResult where
  found : Bool
  nonce : Option String
  iterations : Nat
  hash : Option String
deriving DecidableEq

/-- Loop of `solveChallenge`: try nonces `nonce, nonce+1, ...` while fuel
remains; `iterations` counts every tried nonce. -/
def solveFrom (E : Env) (pfx target : String) (nonce : Nat) : Nat → SolveResult
  | 0 => ⟨false, none, nonce, none⟩
  | remaining + 1 =>
    let h := E.sha (pfx ++ decRender nonce)
    if strStartsWith h target then ⟨true, some (decRender nonce), nonce + 1, some h⟩
    else solveFrom E pfx target (nonce + 1) remaining

/-- Model of `solveChallenge` from client.ts: brute-force search for a nonce
whose digest starts with `target`, trying decimal nonces 0, 1, 2, … and
giving up after `maxIterations` attempts. -/
def solveChallenge (E : Env) (pfx target : String) (maxIterations : Nat) : SolveResult :=
  solveFrom E pfx target 0 maxIterations

/-- Failure reasons of `verifyChallenge`. -/
inductive Reason where
  | expired
  | invalid_hash
  | invalid_signature
  | missing_signature
  | missing_secret
  | invalid_input
  | invalid_target
  | invalid_expiry
deriving DecidableEq

/-- Result record of `verifyChallenge`. -/
structure VerifyResult where
  valid : Bool
  reason : Option Reason
  hash : Option String
deriving DecidableEq

/-- Options record of `createChallenge`.  Metadata is carried as its
canonical JSON serialization (an opaque string): no claim depends on the
canonicalization itself, only on whether metadata is present. -/
structure ChallengeOptions where
  difficulty : Option JSNum := none
  expiresIn : Option JSNum := none
  metadata : Option String := none
  secret : Option String := none

/-- The challenge record produced by `createChallenge`. -/
structure Challenge where
  id : String
  pfx : String
  target : String
  expiresAt : ℚ
  metadata : Option String
  signature : Option String
deriving DecidableEq

/-- Metadata fingerprint used in signing payloads: the first 16 hex
characters of the SHA-256 of the canonical metadata serialization, or the
empty string when there is no metadata. -/
def metaHash (E : Env) (metadata : Option String) : String :=
  match metadata with
  | some m => strTake (E.sha m) 16
  | none => ""

/-- Rendering of an `expiresAt` value inside a signing payload
(template-literal stringification of the number). -/
def qRender (q : ℚ) : String :=
  if q.den = 1 then intRender q.num else "nonintegral"

/-- Signing payload of a challenge: `prefix:target:expiresAt:metaHash`. -/
def signPayload (E : Env) (pfx target : String) (expiresAt : ℚ)
    (metadata : Option String) : String :=
  pfx ++ ":" ++ target ++ ":" ++ qRender expiresAt ++ ":" ++ metaHash E metadata

/-- Model of `createChallenge` from index.ts.  The two random byte draws
(`randomBytes(12)` for the id, `randomBytes(8)` for the prefix) and the
current wall-clock second are explicit inputs.  The function is total:
malformed numeric options are normalized, never rejected. -/
def createChallenge (E : Env) (o : ChallengeOptions) (idBytes pfxBytes : List Nat)
    (nowSec : Int) : Challenge :=
  let difficulty0 := o.difficulty.getD (.fin 4)
  let expiresIn0 := o.expiresIn.getD (.fin 60)
  let expiresIn : ℚ :=
    match expiresIn0 with
    | .fin q => if q ≤ 0 then 60 else q
    | _ => 60
  let difficulty : ℚ :=
    match difficulty0 with
    | .fin q => q
    | _ => 4
  let clampedDifficulty : Int := max 1 (min 6 ⌊difficulty⌋)
  let id := "nha_" ++ hexEncode idBytes
  let pfx := hexEncode pfxBytes
  let target := zeros clampedDifficulty.toNat
  let expiresAt : ℚ := (nowSec : ℚ) + expiresIn
  let signature : Option String :=
    if optStrTruthy o.secret then
      some (hmacSign E (signPayload E pfx target expiresAt o.metadata) (o.secret.getD "") 32)
    else none
  ⟨id, pfx, target, expiresAt, o.metadata, signature⟩

/-- Options record of `verifyChallenge`.  The fields the source type-checks
at runtime are modelled as dynamic values. -/
structure VerifyOptions where
  pfx : JSVal
  nonce : JSVal
  target : JSVal
  expiresAt : JSNum
  signature : Option String := none
  secret : Option String := none
  requireSignature : Bool := false
  metadata : Option String := none

/-- The source's first input check: `!prefix || typeof prefix !== 'string'
|| prefix.length === 0`. -/
def prefixCheckFails : JSVal → Bool
  | .str s => s.data.length == 0
  | _ => true

/-- The source's nonce check: nonce is neither undefined, null, nor of a
type other than string and number. -/
def nonceCheckFails : JSVal → Bool
  | .str _ => false
  | .num _ => false
  | _ => true

/-- The source's target check: `!target || typeof target !== 'string' ||
!/^0\x7b1,6\x7d$/.test(target)` (one to six zero characters, anchored). -/
def targetCheckFails : JSVal → Bool
  | .str s =>
    !(decide (1 ≤ s.data.length) && decide (s.data.length ≤ 6)
      && s.data.all (fun c => c == '0'))
  | _ => true

/-- The source's expiry validity check: `!Number.isFinite(expiresAt) ||
expiresAt <= 0`. -/
def expiryCheckFails : JSNum → Bool
  | .fin q => decide (q ≤ 0)
  | _ => true

/-- Model of `verifyChallenge` from index.ts.  The current wall-clock second
is an explicit input.  The function is total: every failure is returned as a
tagged reason, never thrown. -/
def verifyChallenge (E : Env) (o : VerifyOptions) (nowSec : Int) : VerifyResult :=
  if prefixCheckFails o.pfx then ⟨false, some .invalid_input, none⟩
  else if nonceCheckFails o.nonce then ⟨false, some .invalid_input, none⟩
  else if targetCheckFails o.target then ⟨false, some .invalid_target, none⟩
  else if expiryCheckFails o.expiresAt then ⟨false, some .invalid_expiry, none⟩
  else
    let pfxStr := jsValToString o.pfx
    let nonceStr := jsValToString o.nonce
    let targetStr := jsValToString o.target
    let expiresQ : ℚ := match o.expiresAt with | .fin q => q | _ => 0
    if decide ((nowSec : ℚ) > expiresQ) then ⟨false, some .expired, none⟩
    else if o.requireSignature && !(optStrTruthy o.secret) then
      ⟨false, some .missing_secret, none⟩
    else if o.requireSignature && !(optStrTruthy o.signature) then
      ⟨false, some .missing_signature, none⟩
    else if optStrTruthy o.signature && !(optStrTruthy o.secret) then
      ⟨false, some .missing_secret, none⟩
    else if optStrTruthy o.signature && optStrTruthy o.secret then
      let expectedSig := hmacSign E (signPayload E pfxStr targetStr expiresQ o.metadata)
        (o.secret.getD "") 32
      if !(safeCompare (o.signature.getD "") expectedSig) then
        ⟨false, some .invalid_signature, none⟩
      else
        let hash := E.sha (pfxStr ++ nonceStr)
        if !(strStartsWith hash targetStr) then ⟨false, some .invalid_hash, some hash⟩
        else ⟨true, none, some hash⟩
    else
      let hash := E.sha (pfxStr ++ nonceStr)
      if !(strStartsWith hash targetStr) then ⟨false, some .invalid_hash, some hash⟩
      else ⟨true, none, some hash⟩

/-- Model of JavaScript `String.split` with a one-character separator:
splits at every occurrence, keeping empty segments, and maps the empty
string to one empty segment. -/
def jsSplit (sep : Char) : List Char → List (List Char)
  | [] => [[]]
  | c :: cs =>
    if c = sep then [] :: jsSplit sep cs
    else
      match jsSplit sep cs with
      | [] => [[c]]
      | seg :: rest => (c :: seg) :: rest

/-- Decimal digit test, as `parseInt` with radix 10 accepts characters. -/
def isDigitChar (c : Char) : Bool := '0' ≤ c && c ≤ '9'

/-- Numeric value of a big-endian decimal digit string. -/
def digitsVal (ds : List Char) : Nat :=
  ds.foldl (fun a c => a * 10 + (c.toNat - 48)) 0

/-- Leading-digit parse of a character list: the longest digit run, or
nothing when the list does not begin with a digit. -/
def parseNatDec (cs : List Char) : Option Nat :=
  let ds := cs.takeWhile isDigitChar
  if ds.isEmpty then none else some (digitsVal ds)

/-- Model of JavaScript `parseInt(s, 10)`: skip leading spaces, accept an
optional sign, read the leading digit run and ignore any trailing
characters; `none` models the NaN result. -/
def parseIntDec (s : String) : Option Int :=
  match s.data.dropWhile (fun c => c = ' ') with
  | [] => none
  | c :: rest =>
    if c = '-' then (parseNatDec rest).map (fun n => -(n : Int))
    else if c = '+' then (parseNatDec rest).map (fun n => (n : Int))
    else (parseNatDec (c :: rest)).map (fun n => (n : Int))

/-- The 64 characters of the base64 alphabet, indexed by sextet value. -/
def sextetChar (n : Nat) : Char :=
  (("ABCDEFGHIJKLMNOPQRSTUVWXYZabcdefghijklmnopqrstuvwxyz0123456789+/").data).getD n 'A'

/-- Sextet value of a base64 alphabet character (0 for characters outside
the alphabet, modelling Node's lenient decoder). -/
def sextetVal (c : Char) : Nat :=
  match (("ABCDEFGHIJKLMNOPQRSTUVWXYZabcdefghijklmnopqrstuvwxyz0123456789+/").data).indexOf? c with
  | some i => i
  | none => 0

/-- Base64 encoding of a byte list, with `=` padding, exactly as
`Buffer.toString('base64')` produces it. -/
def b64enc : List Nat → List Char
  | [] => []
  | [a] => [sextetChar (a / 4), sextetChar (a % 4 * 16), '=', '=']
  | [a, b] => [sextetChar (a / 4), sextetChar (a % 4 * 16 + b / 16), sextetChar (b % 16 * 4), '=']
  | a :: b :: c :: rest =>
    sextetChar (a / 4) :: sextetChar (a % 4 * 16 + b / 16) ::
      sextetChar (b % 16 * 4 + c / 64) :: sextetChar (c % 64) :: b64enc rest

/-- Base64 decoding of a character list in groups of four characters with
`=` padding, as `Buffer.from(s, 'base64')` consumes well-formed input. -/
def b64dec : List Char → List Nat
  | x :: y :: z :: w :: rest =>
    if z = '=' then [sextetVal x * 4 + sextetVal y / 16]
    else if w = '=' then
      [sextetVal x * 4 + sextetVal y / 16, sextetVal y % 16 * 16 + sextetVal z / 4]
    else
      (sextetVal x * 4 + sextetVal y / 16) :: (sextetVal y % 16 * 16 + sextetVal z / 4) ::
        (sextetVal z % 4 * 64 + sextetVal w) :: b64dec rest
  | _ => []

/-- UTF-8 encoding of one character (the byte sequence `Buffer.from`
produces for it). -/
def utf8EncChar (c : Char) : List Nat :=
  if c.toNat < 128 then [c.toNat]
  else if c.toNat < 2048 then [192 + c.toNat / 64, 128 + c.toNat % 64]
  else if c.toNat < 65536 then
    [224 + c.toNat / 4096, 128 + c.toNat / 64 % 64, 128 + c.toNat % 64]
  else
    [240 + c.toNat / 262144, 128 + c.toNat / 4096 % 64, 128 + c.toNat / 64 % 64,
      128 + c.toNat % 64]

/-- UTF-8 encoding of a character list. -/
def utf8Enc : List Char → List Nat
  | [] => []
  | c :: cs => utf8EncChar c ++ utf8Enc cs

/-- UTF-8 decoding of a byte list (truncated or malformed tails decode to
nothing; only encoder output is ever decoded in the claims). -/
def utf8Dec : List Nat → List Char
  | [] => []
  | b :: rest =>
    if b < 128 then Char.ofNat b :: utf8Dec rest
    else if b < 224 then
      match rest with
      | b2 :: rest2 => Char.ofNat ((b - 192) * 64 + (b2 - 128)) :: utf8Dec rest2
      | [] => []
    else if b < 240 then
      match rest with
      | b2 :: b3 :: rest3 =>
        Char.ofNat ((b - 224) * 4096 + (b2 - 128) * 64 + (b3 - 128)) :: utf8Dec rest3
      | _ => []
    else
      match rest with
      | b2 :: b3 :: b4 :: rest4 =>
        Char.ofNat ((b - 240) * 262144 + (b2 - 128) * 4096 + (b3 - 128) * 64 + (b4 - 128)) ::
          utf8Dec rest4
      | _ => []

/-- Model of `Buffer.from(s).toString('base64')`. -/
def b64encodeStr (s : String) : String := ⟨b64enc (utf8Enc s.data)⟩

/-- Model of `Buffer.from(s, 'base64').toString()`. -/
def b64decodeStr (s : String) : String := ⟨utf8Dec (b64dec s.data)⟩

/-- Result record of `verifyToken`. -/
structure TokenResult where
  valid : Bool
  challengeId : Option String
deriving DecidableEq

/-- Model of `generateToken` from index.ts: the one operation of the core
that throws, and only on a malformed challenge id (missing, not a string,
empty, or not starting with the reserved `nha_` marker).  The issuance
wall-clock millisecond is an explicit input. -/
def generateToken (E : Env) (challengeId : JSVal) (secret : Option String)
    (nowMs : Int) : Except String String :=
  match challengeId with
  | .str s =>
    if s == "" || !(strStartsWith s "nha_") then
      .error "Invalid challengeId: must start with nha_"
    else
      let payload := s ++ ":" ++ intRender nowMs
      if optStrTruthy secret then
        .ok (b64encodeStr payload ++ "." ++ hmacSign E payload (secret.getD "") 32)
      else
        .ok (b64encodeStr payload)
  | _ => .error "Invalid challengeId: must start with nha_"

/-- Model of `verifyToken` from index.ts.  The verification wall-clock
millisecond is an explicit input.  The source wraps its whole body in a
try/catch that converts any exception into the tagged failure; in the model
every branch returns the tagged record directly, so the function is total
and never throws by construction. -/
def verifyToken (E : Env) (token : JSVal) (secret : Option String) (maxAgeMs : Int)
    (requireSecret : Bool) (nowMs : Int) : TokenResult :=
  match token with
  | .str t =>
    if t == "" then ⟨false, none⟩
    else
      let parts := jsSplit '.' t.data
      let payloadB64 := parts.headD []
      let sig : Option (List Char) := parts[1]?
      if payloadB64.isEmpty then ⟨false, none⟩
      else
        let payload := b64decodeStr ⟨payloadB64⟩
        let parts2 := jsSplit ':' payload.data
        if !(parts2.length == 2) then ⟨false, none⟩
        else
          let challengeId : String := ⟨parts2.headD []⟩
          let timestampStr : String := ⟨parts2.getD 1 []⟩
          if challengeId == "" || !(strStartsWith challengeId "nha_") then ⟨false, none⟩
          else
            match parseIntDec timestampStr with
            | none => ⟨false, none⟩
            | some timestamp =>
              if decide (timestamp ≤ 0) then ⟨false, none⟩
              else if decide (nowMs - timestamp ≥ maxAgeMs) then ⟨false, none⟩
              else if requireSecret && !(optStrTruthy secret) then ⟨false, none⟩
              else if optStrTruthy secret then
                match sig with
                | none => ⟨false, none⟩
                | some sg =>
                  if (⟨sg⟩ : String) == "" then ⟨false, none⟩
                  else if safeCompare ⟨sg⟩ (hmacSign E payload (secret.getD "") 32) then
                    ⟨true, some challengeId⟩
                  else ⟨false, none⟩
              else ⟨true, some challengeId⟩
  | _ => ⟨false, none⟩

/-- Digest test the solver applies to a candidate nonce. -/
def nonceHits (E : Env) (pfx target : String) (n : Nat) : Bool :=
  strStartsWith (E.sha (pfx ++ decRender n)) target

lemma solveFrom_fail (E : Env) (pfx target : String) :
    ∀ r s, (∀ i, s ≤ i → i < s + r → nonceHits E pfx target i = false) →
      solveFrom E pfx target s r = ⟨false, none, s + r, none⟩ := by
  intro r
  induction r with
  | zero => intro s _; simp [solveFrom]
  | succ k ih =>
    intro s h
    have hs : nonceHits E pfx target s = false := h s le_rfl (by omega)
    simp only [solveFrom, nonceHits] at hs ⊢
    rw [hs]
    simp only [Bool.false_eq_true, if_false]
    have := ih (s + 1) (fun i h1 h2 => h i (by omega) (by omega))
    rw [this]
    congr 1
    omega

lemma solveFrom_found (E : Env) (pfx target : String) :
    ∀ r s n, s ≤ n → n < s + r → nonceHits E pfx target n = true →
      (∀ m, s ≤ m → m < n → nonceHits E pfx target m = false) →
      solveFrom E pfx target s r =
        ⟨true, some (decRender n), n + 1, some (E.sha (pfx ++ decRender n))⟩ := by
  intro r
  induction r with
  | zero => intro s n h1 h2; omega
  | succ k ih =>
    intro s n h1 h2 hn hleast
    by_cases hs : n = s
    · subst hs
      simp only [solveFrom, nonceHits] at hn ⊢
      rw [hn]
      simp
    · have hsf : nonceHits E pfx target s = false := hleast s le_rfl (by omega)
      simp only [solveFrom, nonceHits] at hsf ⊢
      rw [hsf]
      simp only [Bool.false_eq_true, if_false]
      exact ih (s + 1) n (by omega) (by omega) hn
        (fun m hm1 hm2 => hleast m (by omega) hm2)

/-- C4: for every prefix, target and iteration bound, the solver tries
decimal nonces 0, 1, 2, … in order: when no nonce below the bound hits the
target it reports failure with `iterations = maxIterations` (and no
exception, the function being total), and when some nonce hits, it returns
the smallest hitting nonce as a decimal string, its digest as the hash, and
`iterations` equal to that nonce plus one. -/
theorem solveChallenge_least_nonce (E : Env) (pfx target : String) (maxIterations : Nat) :
    ((∀ n, n < maxIterations → nonceHits E pfx target n = false) →
      solveChallenge E pfx target maxIterations = ⟨false, none, maxIterations, none⟩)
    ∧ (∀ n, n < maxIterations → nonceHits E pfx target n = true →
        (∀ m, m < n → nonceHits E pfx target m = false) →
        solveChallenge E pfx target maxIterations =
          ⟨true, some (decRender n), n + 1, some (E.sha (pfx ++ decRender n))⟩) := by
  constructor
  · intro h
    have := solveFrom_fail E pfx target maxIterations 0 (fun i _ h2 => h i (by omega))
    simpa [solveChallenge] using this
  · intro n h1 h2 h3
    have := solveFrom_found E pfx target maxIterations 0 n (by omega) (by omega) h2
      (fun m _ hm => h3 m hm)
    simpa [solveChallenge] using this

/-- Concrete digest environment used by several witnesses: only the input
"ab1" hashes to a digest with a leading zero. -/
def envW : Env := ⟨fun s => if s == "ab1" then "0fff" else "ffff", fun _ p => "aa" ++ p⟩

/-- Witness for C4 at a concrete input: with the stub digest, nonce 1 is the
least hit below bound 5, and the solver reports exactly that. -/
theorem solveChallenge_least_nonce_witness :
    (1 < 5 ∧ nonceHits envW "ab" "0" 1 = true) ∧
      solveChallenge envW "ab" "0" 5 = ⟨true, some "1", 2, some "0fff"⟩ := by
  refine ⟨⟨by omega, by decide⟩, ?_⟩
  have h := (solveChallenge_least_nonce envW "ab" "0" 5).2 1 (by omega) (by decide)
    (fun m hm => by interval_cases m; decide)
  simpa using h

/-- Difficulty as the spec's words normalize it: any non-finite or missing
difficulty is first replaced by 4. -/
def specDifficultyEff (d : Option JSNum) : ℚ :=
  match d with
  | some (.fin q) => q
  | _ => 4

/-- The spec's clamp of the floored difficulty into the interval 1..6. -/
def specClampedDifficulty (d : Option JSNum) : Int :=
  max 1 (min 6 ⌊specDifficultyEff d⌋)

/-- Expiry duration as the spec's words normalize it: any non-finite or
non-positive (or missing) expiresIn is replaced by 60. -/
def specExpiresInEff (e : Option JSNum) : ℚ :=
  match e with
  | some (.fin q) => if 0 < q then q else 60
  | _ => 60

lemma createChallenge_target_eq (E : Env) (o : ChallengeOptions)
    (idBytes pfxBytes : List Nat) (nowSec : Int) :
    (createChallenge E o idBytes pfxBytes nowSec).target =
      zeros (specClampedDifficulty o.difficulty).toNat := by
  rcases hd : o.difficulty with _ | d
  · simp [createChallenge, specClampedDifficulty, specDifficultyEff, hd]
  · cases d <;>
      simp [createChallenge, specClampedDifficulty, specDifficultyEff, hd]

lemma createChallenge_expiresAt_eq (E : Env) (o : ChallengeOptions)
    (idBytes pfxBytes : List Nat) (nowSec : Int) :
    (createChallenge E o idBytes pfxBytes nowSec).expiresAt =
      (nowSec : ℚ) + specExpiresInEff o.expiresIn := by
  rcases he : o.expiresIn with _ | e
  · simp [createChallenge, specExpiresInEff, he]
  · cases e with
    | fin q =>
      by_cases hq : q ≤ 0
      · simp [createChallenge, specExpiresInEff, he, hq, not_lt.mpr hq]
      · simp [createChallenge, specExpiresInEff, he, hq, lt_of_not_le hq]
    | nan => simp [createChallenge, specExpiresInEff, he]
    | posInf => simp [createChallenge, specExpiresInEff, he]
    | negInf => simp [createChallenge, specExpiresInEff, he]

lemma createChallenge_pfx_eq (E : Env) (o : ChallengeOptions)
    (idBytes pfxBytes : List Nat) (nowSec : Int) :
    (createChallenge E o idBytes pfxBytes nowSec).pfx = hexEncode pfxBytes := by
  simp [createChallenge]

/-- C8: for every options value, createChallenge returns a challenge (the
function is total, so no input is ever rejected): its target is the zero
character repeated clamp(floor(difficulty), 1, 6) times with non-finite or
missing difficulty first replaced by 4, and its expiresAt is the current
time in seconds plus the expiresIn duration, with non-finite or non-positive
expiresIn replaced by 60. -/
theorem createChallenge_normalizes (E : Env) (o : ChallengeOptions)
    (idBytes pfxBytes : List Nat) (nowSec : Int) :
    (createChallenge E o idBytes pfxBytes nowSec).target =
        zeros (specClampedDifficulty o.difficulty).toNat
    ∧ (createChallenge E o idBytes pfxBytes nowSec).expiresAt =
        (nowSec : ℚ) + specExpiresInEff o.expiresIn :=
  ⟨createChallenge_target_eq E o idBytes pfxBytes nowSec,
    createChallenge_expiresAt_eq E o idBytes pfxBytes nowSec⟩

/-- C3: when a signature is supplied but no (truthy) secret is supplied,
and the prefix, nonce, target, expiry-validity, expiry and requireSignature
checks all pass, verification fails closed with reason missing_secret --
even when the submitted nonce's digest does start with the target. -/
theorem verifyChallenge_missing_secret (E : Env) (o : VerifyOptions) (nowSec : Int) (q : ℚ)
    (hpre : prefixCheckFails o.pfx = false)
    (hnon : nonceCheckFails o.nonce = false)
    (htar : targetCheckFails o.target = false)
    (hexp : o.expiresAt = .fin q)
    (hexpok : expiryCheckFails o.expiresAt = false)
    (hnow : ¬((nowSec : ℚ) > q))
    (hreq : o.requireSignature = false)
    (hsig : optStrTruthy o.signature = true)
    (hsec : optStrTruthy o.secret = false)
    (hhash : strStartsWith (E.sha (jsValToString o.pfx ++ jsValToString o.nonce))
      (jsValToString o.target) = true) :
    verifyChallenge E o nowSec = ⟨false, some .missing_secret, none⟩ := by
  rw [hexp] at hexpok
  simp [verifyChallenge, hpre, hnon, htar, hexp, hexpok, hnow, hreq, hsig, hsec]

/-- Witness for C3 at a concrete input: all earlier checks pass, the digest
matches the target, yet the present signature with an absent secret yields
missing_secret. -/
theorem verifyChallenge_missing_secret_witness :
    (prefixCheckFails (JSVal.str "ab") = false
      ∧ optStrTruthy (some "x") = true
      ∧ strStartsWith (envW.sha ("ab" ++ "1")) "0" = true)
    ∧ verifyChallenge envW ⟨.str "ab", .str "1", .str "0", .fin 60, some "x", none, false, none⟩ 0
        = ⟨false, some .missing_secret, none⟩ := by
  refine ⟨⟨by decide, by decide, by decide⟩, ?_⟩
  exact verifyChallenge_missing_secret envW
    ⟨.str "ab", .str "1", .str "0", .fin 60, some "x", none, false, none⟩ 0 60
    (by decide) (by decide) (by decide) rfl (by decide) (by norm_num) rfl (by decide)
    (by decide) (by decide)

/-- Spec wording, check 1: the prefix is a non-empty string. -/
def specIsNonEmptyString : JSVal → Bool
  | .str s => !(s == "")
  | _ => false

/-- Spec wording, check 2: the nonce is present and a string or a number. -/
def specIsStringOrNumber : JSVal → Bool
  | .str _ => true
  | .num _ => true
  | _ => false

/-- Spec wording, check 3: the target is a string of one to six zero
characters (the anchored pattern of the spec). -/
def specTargetMatches : JSVal → Bool
  | .str s =>
    decide (1 ≤ s.data.length) && decide (s.data.length ≤ 6)
      && (s == zeros s.data.length)
  | _ => false

/-- Spec wording, check 4: expiresAt is a finite number greater than zero. -/
def specExpiryValid : JSNum → Bool
  | .fin q => decide (0 < q)
  | _ => false

/-- Spec wording, check 5: the current time is strictly greater than
expiresAt. -/
def specExpired (e : JSNum) (nowSec : Int) : Bool :=
  match e with
  | .fin q => decide ((nowSec : ℚ) > q)
  | _ => false

/-- The ordered first-failing-check verdict of the spec's validation list:
each reason is produced exactly when its check fails and every earlier check
passed, and no reason means every check passed. -/
def specFirstFailure (E : Env) (o : VerifyOptions) (nowSec : Int) : Option Reason :=
  if !(specIsNonEmptyString o.pfx) then some .invalid_input
  else if !(specIsStringOrNumber o.nonce) then some .invalid_input
  else if !(specTargetMatches o.target) then some .invalid_target
  else if !(specExpiryValid o.expiresAt) then some .invalid_expiry
  else if specExpired o.expiresAt nowSec then some .expired
  else if o.requireSignature && !(optStrTruthy o.secret) then some .missing_secret
  else if o.requireSignature && !(optStrTruthy o.signature) then some .missing_signature
  else if optStrTruthy o.signature && !(optStrTruthy o.secret) then some .missing_secret
  else
    let q : ℚ := match o.expiresAt with | .fin q => q | _ => 0
    if optStrTruthy o.signature && optStrTruthy o.secret
        && !(safeCompare (o.signature.getD "")
          (hmacSign E (signPayload E (jsValToString o.pfx) (jsValToString o.target) q
            o.metadata) (o.secret.getD "") 32)) then some .invalid_signature
    else if !(strStartsWith (E.sha (jsValToString o.pfx ++ jsValToString o.nonce))
        (jsValToString o.target)) then some .invalid_hash
    else none

lemma beq_empty_eq (s : String) : (s == "") = (s.data.length == 0) := by
  rcases s with ⟨l⟩
  cases l <;> simp [String.ext_iff]

lemma prefixCheckFails_eq (v : JSVal) : prefixCheckFails v = !(specIsNonEmptyString v) := by
  cases v <;> simp [prefixCheckFails, specIsNonEmptyString, beq_empty_eq]

lemma nonceCheckFails_eq (v : JSVal) : nonceCheckFails v = !(specIsStringOrNumber v) := by
  cases v <;> simp [nonceCheckFails, specIsStringOrNumber]

lemma all_zero_eq_replicate (l : List Char) :
    (l.all (fun c => c == '0')) = decide (l = List.replicate l.length '0') := by
  rw [Bool.eq_iff_iff]
  simp [List.all_eq_true, List.eq_replicate_iff]

lemma targetCheckFails_eq (v : JSVal) : targetCheckFails v = !(specTargetMatches v) := by
  cases v with
  | str s =>
    rcases s with ⟨l⟩
    simp only [targetCheckFails, specTargetMatches, zeros, all_zero_eq_replicate,
      Bool.not_not]
    congr 1
    rw [Bool.eq_iff_iff]
    simp [String.ext_iff]
  | undef => simp [targetCheckFails, specTargetMatches]
  | nullv => simp [targetCheckFails, specTargetMatches]
  | boolv b => simp [targetCheckFails, specTargetMatches]
  | num n => simp [targetCheckFails, specTargetMatches]
  | obj => simp [targetCheckFails, specTargetMatches]

lemma expiryCheckFails_eq (e : JSNum) : expiryCheckFails e = !(specExpiryValid e) := by
  cases e with
  | fin q =>
    simp only [expiryCheckFails, specExpiryValid, ← decide_not, decide_eq_decide]
    exact not_lt.symm
  | nan => simp [expiryCheckFails, specExpiryValid]
  | posInf => simp [expiryCheckFails, specExpiryValid]
  | negInf => simp [expiryCheckFails, specExpiryValid]

lemma verifyChallenge_eq_specFirstFailure (E : Env) (o : VerifyOptions) (nowSec : Int) :
    (verifyChallenge E o nowSec).reason = specFirstFailure E o nowSec
    ∧ (verifyChallenge E o nowSec).valid = (specFirstFailure E o nowSec).isNone := by
  rcases o with ⟨p, non, tgt, exp, sig, sec, rs, md⟩
  simp only [verifyChallenge, specFirstFailure, prefixCheckFails_eq, nonceCheckFails_eq,
    targetCheckFails_eq, expiryCheckFails_eq]
  cases specIsNonEmptyString p
  · simp
  cases specIsStringOrNumber non
  · simp
  cases specTargetMatches tgt
  · simp
  rcases exp with q | _ | _ | _
  case nan => simp [specExpiryValid]
  case posInf => simp [specExpiryValid]
  case negInf => simp [specExpiryValid]
  by_cases h4 : (0 : ℚ) < q
  swap
  · simp [specExpiryValid, h4]
  have h4' : decide ((0 : ℚ) < q) = true := by simp [h4]
  by_cases h5 : (nowSec : ℚ) > q
  · simp [specExpiryValid, specExpired, h4', h5]
  have h5' : decide ((nowSec : ℚ) > q) = false := by simp [h5]
  simp only [specExpiryValid, specExpired, h4', h5', Bool.not_true, Bool.false_eq_true,
    if_false]
  cases rs
  · simp only [Bool.false_and, Bool.false_eq_true, if_false]
    cases hsig : optStrTruthy sig
    · simp only [Bool.false_and, Bool.false_eq_true, if_false]
      cases strStartsWith (E.sha (jsValToString p ++ jsValToString non)) (jsValToString tgt)
        <;> simp
    · simp only [Bool.true_and]
      cases hsec : optStrTruthy sec
      · simp
      · simp only [Bool.not_true, Bool.false_eq_true, if_false, Bool.true_and]
        by_cases h6 : safeCompare (sig.getD "")
            (hmacSign E (signPayload E (jsValToString p) (jsValToString tgt) q md)
              (sec.getD "") 32)
        · simp only [h6, Bool.not_true, Bool.false_eq_true, if_false]
          cases strStartsWith (E.sha (jsValToString p ++ jsValToString non))
              (jsValToString tgt) <;> simp
        · simp [h6]
  · simp only [Bool.true_and]
    cases hsec : optStrTruthy sec
    · simp
    · simp only [Bool.not_true, Bool.false_eq_true, if_false]
      cases hsig : optStrTruthy sig
      · simp
      · simp only [Bool.not_true, Bool.false_eq_true, if_false, Bool.true_and]
        by_cases h6 : safeCompare (sig.getD "")
            (hmacSign E (signPayload E (jsValToString p) (jsValToString tgt) q md)
              (sec.getD "") 32)
        · simp only [h6, Bool.not_true, Bool.false_eq_true, if_false]
          cases strStartsWith (E.sha (jsValToString p ++ jsValToString non))
              (jsValToString tgt) <;> simp
        · simp [h6]

/-- C2: verifyChallenge applies the spec's checks in the spec's order: the
verdict's reason is exactly the first failing check's reason of the ordered
spec list (so no later check can influence the result once an earlier one
fails, and the result is valid exactly when no check fails); in particular a
challenge whose expiresAt equals the current time is not expired. -/
theorem verifyChallenge_check_order (E : Env) (o : VerifyOptions) (nowSec : Int) :
    (verifyChallenge E o nowSec).reason = specFirstFailure E o nowSec
    ∧ (verifyChallenge E o nowSec).valid = (specFirstFailure E o nowSec).isNone
    ∧ ∀ q, o.expiresAt = .fin q → (nowSec : ℚ) = q →
        (verifyChallenge E o nowSec).reason ≠ some .expired := by
  have main := verifyChallenge_eq_specFirstFailure E o nowSec
  refine ⟨main.1, main.2, ?_⟩
  intro q hq hnow
  rw [main.1]
  simp only [specFirstFailure, hq]
  have hexpired : specExpired (.fin q) nowSec = false := by
    simp [specExpired, ← hnow]
  rw [hexpired]
  split_ifs <;> first | decide | exact False.elim ‹False›

lemma solveFrom_found_inv (E : Env) (pfx target : String) :
    ∀ r s, (solveFrom E pfx target s r).found = true →
      ∃ n, solveFrom E pfx target s r =
          ⟨true, some (decRender n), n + 1, some (E.sha (pfx ++ decRender n))⟩
        ∧ nonceHits E pfx target n = true := by
  intro r
  induction r with
  | zero => intro s h; simp [solveFrom] at h
  | succ k ih =>
    intro s h
    cases hs : strStartsWith (E.sha (pfx ++ decRender s)) target
    · have hstep : solveFrom E pfx target s (k + 1) = solveFrom E pfx target (s + 1) k := by
        simp [solveFrom, hs]
      rw [hstep] at h ⊢
      exact ih (s + 1) h
    · refine ⟨s, ?_, ?_⟩
      · simp [solveFrom, hs]
      · simp [nonceHits, hs]

lemma hexChars_length (bs : List Nat) : (hexChars bs).length = 2 * bs.length := by
  induction bs with
  | nil => rfl
  | cons b rest ih =>
    simp [hexChars, byteHex, ih]
    omega

lemma targetCheckFails_zeros (k : Nat) (h1 : 1 ≤ k) (h2 : k ≤ 6) :
    targetCheckFails (.str (zeros k)) = false := by
  simp [targetCheckFails, zeros, h1, h2, List.all_eq_true]

lemma specClampedDifficulty_bounds (d : Option JSNum) :
    1 ≤ specClampedDifficulty d ∧ specClampedDifficulty d ≤ 6 := by
  unfold specClampedDifficulty
  constructor
  · exact le_max_left 1 _
  · exact max_le (by norm_num) (min_le_left 6 _)

lemma specExpiresInEff_pos (e : Option JSNum) : 0 < specExpiresInEff e := by
  rcases e with _ | e
  · norm_num [specExpiresInEff]
  · cases e with
    | fin q =>
      by_cases hq : 0 < q
      · simpa [specExpiresInEff, hq] using hq
      · simp [specExpiresInEff, hq]
    | nan => norm_num [specExpiresInEff]
    | posInf => norm_num [specExpiresInEff]
    | negInf => norm_num [specExpiresInEff]

/-- C1: for every challenge produced by createChallenge and every solution
the solver finds for its prefix and target, verified before the challenge
expires, verifyChallenge with that prefix, the solver's nonce, the
challenge's target and expiresAt returns valid true with a hash equal to the
solver's reported hash, and that hash starts with the target. -/
theorem challenge_solve_verify_roundtrip (E : Env) (o : ChallengeOptions)
    (idBytes pfxBytes : List Nat) (nowSec : Int) (ch : Challenge) (res : SolveResult)
    (maxIterations : Nat) (verNow : Int)
    (hch : ch = createChallenge E o idBytes pfxBytes nowSec)
    (hres : res = solveChallenge E ch.pfx ch.target maxIterations)
    (hpb : pfxBytes.length = 8)
    (hnow : 0 ≤ nowSec)
    (hfound : res.found = true)
    (hver : (verNow : ℚ) ≤ ch.expiresAt) :
    ∃ ns h, res.nonce = some ns ∧ res.hash = some h
      ∧ strStartsWith h ch.target = true
      ∧ verifyChallenge E
          ⟨.str ch.pfx, .str ns, .str ch.target, .fin ch.expiresAt, none, none, false, none⟩
          verNow = ⟨true, none, some h⟩ := by
  have hfound' : (solveFrom E ch.pfx ch.target 0 maxIterations).found = true := by
    rw [hres] at hfound
    simpa [solveChallenge] using hfound
  obtain ⟨n, hrec, hhit⟩ := solveFrom_found_inv E ch.pfx ch.target maxIterations 0 hfound'
  have hres' : res = ⟨true, some (decRender n), n + 1, some (E.sha (ch.pfx ++ decRender n))⟩ := by
    rw [hres]
    simpa [solveChallenge] using hrec
  have hpfx : prefixCheckFails (JSVal.str ch.pfx) = false := by
    have : ch.pfx = hexEncode pfxBytes := by rw [hch, createChallenge_pfx_eq]
    simp [prefixCheckFails, this, hexEncode, hexChars_length, hpb]
  have htar : targetCheckFails (JSVal.str ch.target) = false := by
    have ht : ch.target = zeros (specClampedDifficulty o.difficulty).toNat := by
      rw [hch, createChallenge_target_eq]
    have hb := specClampedDifficulty_bounds o.difficulty
    rw [ht]
    exact targetCheckFails_zeros _ (by omega) (by omega)
  have hqpos : (0 : ℚ) < ch.expiresAt := by
    rw [hch, createChallenge_expiresAt_eq]
    have h1 := specExpiresInEff_pos o.expiresIn
    have h2 : (0 : ℚ) ≤ (nowSec : ℚ) := by exact_mod_cast hnow
    linarith
  have hexp : expiryCheckFails (.fin ch.expiresAt) = false := by
    simp [expiryCheckFails, not_le.mpr hqpos]
  have hexpired : ¬((verNow : ℚ) > ch.expiresAt) := not_lt.mpr hver
  simp only [nonceHits] at hhit
  refine ⟨decRender n, E.sha (ch.pfx ++ decRender n), ?_, ?_, hhit, ?_⟩
  · rw [hres']
  · rw [hres']
  · simp [verifyChallenge, hpfx, htar, hexp, hexpired, nonceCheckFails, optStrTruthy,
      jsValToString, hhit]

/-- Concrete digest environment for the C1 witness: the concatenation of the
all-zero prefix with the nonce 0 digests to a string with four leading
zeros. -/
def envC1 : Env :=
  ⟨fun s => if s == "00000000000000000" then "00001111" else "ffff", fun _ p => "aa" ++ p⟩

/-- Witness for C1 at a concrete input: the challenge produced from
all-zero random bytes at time 0 is solved within 3 iterations, and
verification of the found nonce at time 0 succeeds with the solver's hash. -/
theorem challenge_solve_verify_roundtrip_witness :
    (solveChallenge envC1 (createChallenge envC1 {} [] (List.replicate 8 0) 0).pfx
        (createChallenge envC1 {} [] (List.replicate 8 0) 0).target 3).found = true
    ∧ verifyChallenge envC1
        ⟨.str (createChallenge envC1 {} [] (List.replicate 8 0) 0).pfx, .str "0",
          .str (createChallenge envC1 {} [] (List.replicate 8 0) 0).target,
          .fin (createChallenge envC1 {} [] (List.replicate 8 0) 0).expiresAt,
          none, none, false, none⟩ 0 = ⟨true, none, some "00001111"⟩ := by
  have hfound : (solveChallenge envC1 (createChallenge envC1 {} [] (List.replicate 8 0) 0).pfx
      (createChallenge envC1 {} [] (List.replicate 8 0) 0).target 3).found = true := by
    decide
  refine ⟨hfound, ?_⟩
  have hver : ((0 : Int) : ℚ) ≤ (createChallenge envC1 {} [] (List.replicate 8 0) 0).expiresAt := by
    rw [createChallenge_expiresAt_eq]
    norm_num [specExpiresInEff]
  obtain ⟨ns, h, hns, hh, _, hv⟩ := challenge_solve_verify_roundtrip envC1 {} []
    (List.replicate 8 0) 0 _ _ 3 0 rfl rfl (by decide) (by decide) hfound hver
  have hns' : ns = "0" := by
    have hd : (solveChallenge envC1 (createChallenge envC1 {} [] (List.replicate 8 0) 0).pfx
        (createChallenge envC1 {} [] (List.replicate 8 0) 0).target 3).nonce = some "0" := by
      decide
    rw [hd] at hns
    exact (Option.some_inj.mp hns).symm
  have hh' : h = "00001111" := by
    have hd : (solveChallenge envC1 (createChallenge envC1 {} [] (List.replicate 8 0) 0).pfx
        (createChallenge envC1 {} [] (List.replicate 8 0) 0).target 3).hash
        = some "00001111" := by
      decide
    rw [hd] at hh
    exact (Option.some_inj.mp hh).symm
  rw [hns', hh'] at hv
  exact hv

/-- Witness for C2 at a concrete input: applying the check-order theorem at
a concrete challenge whose expiresAt equals the verification time shows the
verdict is not expired. -/
theorem verifyChallenge_check_order_witness :
    ((⟨.str "ab", .str "1", .str "0", .fin 0, none, none, false, none⟩ :
        VerifyOptions).expiresAt = .fin 0 ∧ (((0 : Int) : ℚ) = 0))
    ∧ (verifyChallenge envW ⟨.str "ab", .str "1", .str "0", .fin 0, none, none, false, none⟩
        0).reason ≠ some .expired := by
  refine ⟨⟨rfl, by norm_num⟩, ?_⟩
  exact (verifyChallenge_check_order envW
    ⟨.str "ab", .str "1", .str "0", .fin 0, none, none, false, none⟩ 0).2.2 0 rfl (by norm_num)

/-- C10: every operation treats the empty-string secret exactly as an absent
secret: createChallenge with an empty secret returns the same (unsigned)
challenge as with no secret; verifyChallenge behaves identically under an
empty and an absent secret (in particular, with a signature present it fails
with missing_secret rather than comparing signatures); generateToken returns
the same unsigned token; verifyToken behaves identically (skipping the
signature comparison) and an empty secret fails the requireSecret option. -/
theorem empty_secret_is_absent (E : Env) :
    (∀ (o : ChallengeOptions) (idBytes pfxBytes : List Nat) (nowSec : Int),
        createChallenge E { o with secret := some "" } idBytes pfxBytes nowSec
          = createChallenge E { o with secret := none } idBytes pfxBytes nowSec
        ∧ (createChallenge E { o with secret := some "" } idBytes pfxBytes nowSec).signature
          = none)
    ∧ (∀ (o : VerifyOptions) (nowSec : Int),
        verifyChallenge E { o with secret := some "" } nowSec
          = verifyChallenge E { o with secret := none } nowSec)
    ∧ (∀ (challengeId : JSVal) (nowMs : Int),
        generateToken E challengeId (some "") nowMs = generateToken E challengeId none nowMs)
    ∧ (∀ (tok : JSVal) (maxAgeMs : Int) (rs : Bool) (nowMs : Int),
        verifyToken E tok (some "") maxAgeMs rs nowMs
          = verifyToken E tok none maxAgeMs rs nowMs)
    ∧ (∀ (tok : JSVal) (maxAgeMs : Int) (nowMs : Int),
        (verifyToken E tok (some "") maxAgeMs true nowMs).valid = false) := by
  refine ⟨?_, ?_, ?_, ?_, ?_⟩
  · intro o idBytes pfxBytes nowSec
    constructor
    · simp [createChallenge, optStrTruthy]
    · simp [createChallenge, optStrTruthy]
  · intro o nowSec
    rcases o with ⟨p, non, tgt, exp, sig, sec, rs, md⟩
    simp [verifyChallenge, optStrTruthy]
  · intro challengeId nowMs
    cases challengeId <;> simp [generateToken, optStrTruthy]
  · intro tok maxAgeMs rs nowMs
    cases tok <;> simp [verifyToken, optStrTruthy]
  · intro tok maxAgeMs nowMs
    cases tok with
    | str t =>
      simp only [verifyToken, optStrTruthy]
      split
      · rfl
      split
      · rfl
      split
      · rfl
      split
      · rfl
      split
      · rfl
      · split
        · rfl
        · simp
    | undef => rfl
    | nullv => rfl
    | boolv b => rfl
    | num n => rfl
    | obj => rfl

/-- Tagged result shapes verifyToken can produce: the bare failure record
or a success carrying a challenge id. -/
def taggedShape (r : TokenResult) : Prop :=
  r = ⟨false, none⟩ ∨ ∃ cid, r = ⟨true, some cid⟩

lemma verifyToken_shape (E : Env) (tok : JSVal) (secret : Option String)
    (maxAgeMs : Int) (rs : Bool) (nowMs : Int) :
    taggedShape (verifyToken E tok secret maxAgeMs rs nowMs) := by
  cases tok with
  | str t =>
    simp only [verifyToken]
    split
    · exact Or.inl rfl
    split
    · exact Or.inl rfl
    split
    · exact Or.inl rfl
    split
    · exact Or.inl rfl
    split
    · exact Or.inl rfl
    split
    · exact Or.inl rfl
    split
    · exact Or.inl rfl
    split
    · exact Or.inl rfl
    · split
      · split
        · exact Or.inl rfl
        · split
          · exact Or.inl rfl
          · split
            · exact Or.inr ⟨_, rfl⟩
            · exact Or.inl rfl
      · exact Or.inr ⟨_, rfl⟩
  | undef => exact Or.inl rfl
  | nullv => exact Or.inl rfl
  | boolv b => exact Or.inl rfl
  | num n => exact Or.inl rfl
  | obj => exact Or.inl rfl

/-- C7: generateToken fails (modelled by `Except.error`, the source's
`throw`) exactly when its challengeId is missing, not a string, or not a
non-empty string starting with `nha_`; by contrast the verification
functions never throw: verifyChallenge is total and tags every failure with
a reason (valid is false exactly when a reason is present), and verifyToken
is total, maps every non-string token to the bare tagged failure, and every
outcome is either the bare tagged failure (as all internal decode and parse
failures are) or a tagged success carrying a challengeId. -/
theorem generateToken_throws_iff (E : Env) :
    (∀ (challengeId : JSVal) (secret : Option String) (nowMs : Int),
        (∃ e, generateToken E challengeId secret nowMs = .error e)
          ↔ ¬ ∃ s, challengeId = .str s ∧ s ≠ "" ∧ strStartsWith s "nha_" = true)
    ∧ (∀ (o : VerifyOptions) (nowSec : Int),
        (verifyChallenge E o nowSec).valid = false
          ↔ (verifyChallenge E o nowSec).reason ≠ none)
    ∧ (∀ tok : JSVal, (∀ s, tok ≠ .str s) →
        ∀ (secret : Option String) (maxAgeMs : Int) (rs : Bool) (nowMs : Int),
          verifyToken E tok secret maxAgeMs rs nowMs = ⟨false, none⟩)
    ∧ (∀ (tok : JSVal) (secret : Option String) (maxAgeMs : Int) (rs : Bool) (nowMs : Int),
        verifyToken E tok secret maxAgeMs rs nowMs = ⟨false, none⟩
          ∨ ∃ cid, verifyToken E tok secret maxAgeMs rs nowMs = ⟨true, some cid⟩) := by
  refine ⟨?_, ?_, ?_, ?_⟩
  · intro challengeId secret nowMs
    cases challengeId with
    | str s =>
      by_cases hc : (s == "" || !(strStartsWith s "nha_")) = true
      · constructor
        · intro _
          rintro ⟨s', hs', hne, hsw⟩
          obtain rfl : s = s' := by injection hs'
          simp only [Bool.or_eq_true, beq_iff_eq, Bool.not_eq_true'] at hc
          rcases hc with hc | hc
          · exact hne hc
          · rw [hc] at hsw
            exact Bool.false_ne_true hsw
        · intro _
          exact ⟨"Invalid challengeId: must start with nha_", by simp [generateToken, hc]⟩
      · simp only [Bool.or_eq_true, beq_iff_eq, Bool.not_eq_true', not_or] at hc
        constructor
        · rintro ⟨e, he⟩
          revert he
          simp only [generateToken, Bool.or_eq_true, beq_iff_eq, Bool.not_eq_true']
          rw [if_neg (by simp [hc.1, hc.2])]
          split <;> simp
        · intro h
          exact absurd ⟨s, rfl, hc.1, by simpa using hc.2⟩ h
    | undef =>
      exact ⟨fun _ => (by rintro ⟨s, hs, _, _⟩; cases hs),
        fun _ => ⟨"Invalid challengeId: must start with nha_", rfl⟩⟩
    | nullv =>
      exact ⟨fun _ => (by rintro ⟨s, hs, _, _⟩; cases hs),
        fun _ => ⟨"Invalid challengeId: must start with nha_", rfl⟩⟩
    | boolv b =>
      exact ⟨fun _ => (by rintro ⟨s, hs, _, _⟩; cases hs),
        fun _ => ⟨"Invalid challengeId: must start with nha_", rfl⟩⟩
    | num n =>
      exact ⟨fun _ => (by rintro ⟨s, hs, _, _⟩; cases hs),
        fun _ => ⟨"Invalid challengeId: must start with nha_", rfl⟩⟩
    | obj =>
      exact ⟨fun _ => (by rintro ⟨s, hs, _, _⟩; cases hs),
        fun _ => ⟨"Invalid challengeId: must start with nha_", rfl⟩⟩
  · intro o nowSec
    have main := verifyChallenge_eq_specFirstFailure E o nowSec
    rcases h : specFirstFailure E o nowSec with _ | r
    · simp [main.1, main.2, h]
    · simp [main.1, main.2, h]
  · intro tok h secret maxAgeMs rs nowMs
    cases tok with
    | str s => exact absurd rfl (h s)
    | undef => rfl
    | nullv => rfl
    | boolv b => rfl
    | num n => rfl
    | obj => rfl
  · intro tok secret maxAgeMs rs nowMs
    rcases verifyToken_shape E tok secret maxAgeMs rs nowMs with h | ⟨cid, h⟩
    · exact Or.inl h
    · exact Or.inr ⟨cid, h⟩

lemma digitChar_isDigit (d : Nat) (h : d < 10) : isDigitChar (digitChar d) = true := by
  interval_cases d <;> decide

lemma digitChar_val (d : Nat) (h : d < 10) : (digitChar d).toNat - 48 = d := by
  interval_cases d <;> decide

lemma digitsVal_append (xs : List Char) (d : Char) :
    digitsVal (xs ++ [d]) = digitsVal xs * 10 + (d.toNat - 48) := by
  simp [digitsVal, List.foldl_append]

lemma decRenderAux_spec : ∀ fuel n, n < fuel →
    (∀ c ∈ decRenderAux fuel n, isDigitChar c = true)
    ∧ digitsVal (decRenderAux fuel n) = n
    ∧ decRenderAux fuel n ≠ [] := by
  intro fuel
  induction fuel with
  | zero => intro n h; omega
  | succ k ih =>
    intro n h
    by_cases h10 : n < 10
    · refine ⟨?_, ?_, ?_⟩
      · intro c hc
        simp [decRenderAux, h10] at hc
        subst hc
        exact digitChar_isDigit n h10
      · simp [decRenderAux, h10, digitsVal, digitChar_val n h10]
      · simp [decRenderAux, h10]
    · have hrec := ih (n / 10) (by omega)
      have hstep : decRenderAux (k + 1) n = decRenderAux k (n / 10) ++ [digitChar (n % 10)] := by
        simp [decRenderAux, h10]
      refine ⟨?_, ?_, ?_⟩
      · intro c hc
        rw [hstep] at hc
        rcases List.mem_append.mp hc with hc | hc
        · exact hrec.1 c hc
        · simp at hc
          subst hc
          exact digitChar_isDigit _ (by omega)
      · rw [hstep, digitsVal_append, hrec.2.1, digitChar_val _ (by omega)]
        omega
      · rw [hstep]
        simp

lemma decRender_digits (n : Nat) : ∀ c ∈ (decRender n).data, isDigitChar c = true :=
  (decRenderAux_spec (n + 1) n (by omega)).1

lemma decRender_val (n : Nat) : digitsVal (decRender n).data = n :=
  (decRenderAux_spec (n + 1) n (by omega)).2.1

lemma decRender_ne_nil (n : Nat) : (decRender n).data ≠ [] :=
  (decRenderAux_spec (n + 1) n (by omega)).2.2

lemma digit_ne_of (c x : Char) (h : isDigitChar c = true) (hx : isDigitChar x = false) :
    c ≠ x := by
  intro he
  rw [he, hx] at h
  exact Bool.false_ne_true h

lemma parseNatDec_decRender (n : Nat) : parseNatDec (decRender n).data = some n := by
  unfold parseNatDec
  rw [List.takeWhile_eq_self_iff.mpr (decRender_digits n)]
  have h1 : (decRender n).data.isEmpty = false := by
    rcases h : (decRender n).data with _ | ⟨c, cs⟩
    · exact absurd h (decRender_ne_nil n)
    · rfl
  simp [h1, decRender_val n]

lemma parseIntDec_decRender (n : Nat) : parseIntDec (decRender n) = some (n : Int) := by
  unfold parseIntDec
  rcases hsh : (decRender n).data with _ | ⟨c, cs⟩
  · exact absurd hsh (decRender_ne_nil n)
  · have hc : isDigitChar c = true := decRender_digits n c (by rw [hsh]; exact List.mem_cons_self c cs)
    have hsp : ¬(c = ' ') := digit_ne_of c ' ' hc (by decide)
    have hmi : ¬(c = '-') := digit_ne_of c '-' hc (by decide)
    have hpl : ¬(c = '+') := digit_ne_of c '+' hc (by decide)
    have hdrop : List.dropWhile (fun x => decide (x = ' ')) (c :: cs) = c :: cs := by
      rw [List.dropWhile_cons]
      simp [hsp]
    rw [hdrop]
    show (if c = '-' then (parseNatDec cs).map (fun k => -(k : Int))
        else if c = '+' then (parseNatDec cs).map (fun k => (k : Int))
        else (parseNatDec (c :: cs)).map (fun k => (k : Int))) = some (n : Int)
    rw [if_neg hmi, if_neg hpl, ← hsh, parseNatDec_decRender]
    rfl

lemma intRender_nonneg (i : Int) (h : 0 ≤ i) : intRender i = decRender i.toNat := by
  rw [intRender, if_neg (not_lt.mpr h)]

lemma jsSplit_ne_nil (sep : Char) (l : List Char) : jsSplit sep l ≠ [] := by
  induction l with
  | nil => simp [jsSplit]
  | cons c cs ih =>
    by_cases h : c = sep
    · simp [jsSplit, h]
    · simp only [jsSplit, if_neg h]
      rcases hr : jsSplit sep cs with _ | ⟨seg, rest⟩
      · simp
      · simp

lemma jsSplit_no_sep (sep : Char) (l : List Char) (h : ∀ x ∈ l, x ≠ sep) :
    jsSplit sep l = [l] := by
  induction l with
  | nil => rfl
  | cons c cs ih =>
    have hc : ¬(c = sep) := h c (List.mem_cons_self c cs)
    have hrec := ih (fun x hx => h x (List.mem_cons_of_mem c hx))
    simp [jsSplit, hc, hrec]

lemma jsSplit_append_sep (sep : Char) (a b : List Char) (h : ∀ x ∈ a, x ≠ sep) :
    jsSplit sep (a ++ sep :: b) = a :: jsSplit sep b := by
  induction a with
  | nil => simp [jsSplit]
  | cons c cs ih =>
    have hc : ¬(c = sep) := h c (List.mem_cons_self c cs)
    have hrec := ih (fun x hx => h x (List.mem_cons_of_mem c hx))
    simp [jsSplit, hc, hrec]

lemma jsSplit_length (sep : Char) (l : List Char) :
    (jsSplit sep l).length = l.count sep + 1 := by
  induction l with
  | nil => simp [jsSplit]
  | cons c cs ih =>
    by_cases h : c = sep
    · simp [jsSplit, h, List.count_cons, ih]
    · simp only [jsSplit, if_neg h]
      rcases hr : jsSplit sep cs with _ | ⟨seg, rest⟩
      · exact absurd hr (jsSplit_ne_nil sep cs)
      · rw [hr] at ih
        simp only [List.length_cons] at ih ⊢
        rw [ih]
        simp [List.count_cons, h]

lemma sextetVal_sextetChar : ∀ n, n < 64 → sextetVal (sextetChar n) = n := by decide

lemma sextetChar_ne_eq (n : Nat) : sextetChar n ≠ '=' := by
  by_cases h : n < 64
  · exact (by decide : ∀ m, m < 64 → sextetChar m ≠ '=') n h
  · unfold sextetChar
    rw [List.getD_eq_default _ _ (by push_neg at h; simpa using h)]
    decide

lemma sextetChar_ne_dot (n : Nat) : sextetChar n ≠ '.' := by
  by_cases h : n < 64
  · exact (by decide : ∀ m, m < 64 → sextetChar m ≠ '.') n h
  · unfold sextetChar
    rw [List.getD_eq_default _ _ (by push_neg at h; simpa using h)]
    decide

lemma b64_roundtrip : ∀ bs : List Nat, (∀ b ∈ bs, b < 256) → b64dec (b64enc bs) = bs
  | [], _ => rfl
  | [a], h => by
    have ha : a < 256 := h a (by simp)
    have h1 := sextetVal_sextetChar (a / 4) (by omega)
    have h2 := sextetVal_sextetChar (a % 4 * 16) (by omega)
    simp [b64enc, b64dec, h1, h2]
    omega
  | [a, b], h => by
    have ha : a < 256 := h a (by simp)
    have hb : b < 256 := h b (by simp)
    have h1 := sextetVal_sextetChar (a / 4) (by omega)
    have h2 := sextetVal_sextetChar (a % 4 * 16 + b / 16) (by omega)
    have h3 := sextetVal_sextetChar (b % 16 * 4) (by omega)
    have hne := sextetChar_ne_eq (b % 16 * 4)
    simp [b64enc, b64dec, hne, h1, h2, h3]
    constructor <;> omega
  | a :: b :: c :: rest, h => by
    have ha : a < 256 := h a (by simp)
    have hb : b < 256 := h b (by simp)
    have hc : c < 256 := h c (by simp)
    have ih := b64_roundtrip rest (fun x hx => h x (by simp [hx]))
    have h1 := sextetVal_sextetChar (a / 4) (by omega)
    have h2 := sextetVal_sextetChar (a % 4 * 16 + b / 16) (by omega)
    have h3 := sextetVal_sextetChar (b % 16 * 4 + c / 64) (by omega)
    have h4 := sextetVal_sextetChar (c % 64) (by omega)
    have hne1 := sextetChar_ne_eq (b % 16 * 4 + c / 64)
    have hne2 := sextetChar_ne_eq (c % 64)
    simp [b64enc, b64dec, hne1, hne2, h1, h2, h3, h4, ih]
    refine ⟨by omega, by omega, by omega⟩

lemma b64enc_no_dot : ∀ (bs : List Nat), ∀ x ∈ b64enc bs, x ≠ '.'
  | [], x, hx => by simp [b64enc] at hx
  | [a], x, hx => by
    simp [b64enc] at hx
    rcases hx with rfl | rfl | rfl
    · exact sextetChar_ne_dot _
    · exact sextetChar_ne_dot _
    · decide
  | [a, b], x, hx => by
    simp [b64enc] at hx
    rcases hx with rfl | rfl | rfl | rfl
    · exact sextetChar_ne_dot _
    · exact sextetChar_ne_dot _
    · exact sextetChar_ne_dot _
    · decide
  | a :: b :: c :: rest, x, hx => by
    simp [b64enc] at hx
    rcases hx with rfl | rfl | rfl | rfl | hx
    · exact sextetChar_ne_dot _
    · exact sextetChar_ne_dot _
    · exact sextetChar_ne_dot _
    · exact sextetChar_ne_dot _
    · exact b64enc_no_dot rest x hx

lemma b64enc_ne_nil (bs : List Nat) (h : bs ≠ []) : b64enc bs ≠ [] := by
  rcases bs with _ | ⟨a, _ | ⟨b, _ | ⟨c, rest⟩⟩⟩
  · exact absurd rfl h
  · simp [b64enc]
  · simp [b64enc]
  · simp [b64enc]

lemma char_toNat_lt (c : Char) : c.toNat < 1114112 := by
  rcases c.valid with h | ⟨h1, h2⟩
  · exact lt_trans h (by norm_num)
  · exact h2

lemma utf8EncChar_lt (c : Char) : ∀ b ∈ utf8EncChar c, b < 256 := by
  have hc := char_toNat_lt c
  intro b hb
  unfold utf8EncChar at hb
  split_ifs at hb with h1 h2 h3 <;> simp at hb <;> omega

lemma utf8EncChar_ne_nil (c : Char) : utf8EncChar c ≠ [] := by
  unfold utf8EncChar
  split_ifs <;> simp

/-- Equation of `utf8Dec` on a non-empty byte list. -/
lemma utf8Dec_cons (b : Nat) (rest : List Nat) :
    utf8Dec (b :: rest) =
      if b < 128 then Char.ofNat b :: utf8Dec rest
      else if b < 224 then
        (match rest with
         | b2 :: rest2 => Char.ofNat ((b - 192) * 64 + (b2 - 128)) :: utf8Dec rest2
         | [] => [])
      else if b < 240 then
        (match rest with
         | b2 :: b3 :: rest3 =>
           Char.ofNat ((b - 224) * 4096 + (b2 - 128) * 64 + (b3 - 128)) :: utf8Dec rest3
         | _ => [])
      else
        (match rest with
         | b2 :: b3 :: b4 :: rest4 =>
           Char.ofNat ((b - 240) * 262144 + (b2 - 128) * 4096 + (b3 - 128) * 64 + (b4 - 128)) ::
             utf8Dec rest4
         | _ => []) := by
  cases rest with
  | nil => rfl
  | cons r1 rs =>
    cases rs with
    | nil => rfl
    | cons r2 rs2 =>
      cases rs2 with
      | nil => rfl
      | cons r3 rs3 => rfl

lemma utf8Dec_encChar (c : Char) (rest : List Nat) :
    utf8Dec (utf8EncChar c ++ rest) = c :: utf8Dec rest := by
  have hc : c.toNat < 1114112 := char_toNat_lt c
  have hofnat : Char.ofNat c.toNat = c := Char.ofNat_toNat c
  by_cases h1 : c.toNat < 128
  · have henc : utf8EncChar c = [c.toNat] := by
      unfold utf8EncChar
      rw [if_pos h1]
    rw [henc, List.cons_append, List.nil_append, utf8Dec_cons, if_pos h1, hofnat]
  · by_cases h2 : c.toNat < 2048
    · have henc : utf8EncChar c = [192 + c.toNat / 64, 128 + c.toNat % 64] := by
        unfold utf8EncChar
        rw [if_neg h1, if_pos h2]
      rw [henc, List.cons_append, List.cons_append, List.nil_append, utf8Dec_cons,
        if_neg (by omega), if_pos (by omega)]
      show Char.ofNat ((192 + c.toNat / 64 - 192) * 64 + (128 + c.toNat % 64 - 128))
          :: utf8Dec rest = c :: utf8Dec rest
      have harith : (192 + c.toNat / 64 - 192) * 64 + (128 + c.toNat % 64 - 128) = c.toNat := by
        omega
      rw [harith, hofnat]
    · by_cases h3 : c.toNat < 65536
      · have henc : utf8EncChar c
            = [224 + c.toNat / 4096, 128 + c.toNat / 64 % 64, 128 + c.toNat % 64] := by
          unfold utf8EncChar
          rw [if_neg h1, if_neg h2, if_pos h3]
        rw [henc, List.cons_append, List.cons_append, List.cons_append, List.nil_append,
          utf8Dec_cons, if_neg (by omega), if_neg (by omega), if_pos (by omega)]
        show Char.ofNat ((224 + c.toNat / 4096 - 224) * 4096
            + (128 + c.toNat / 64 % 64 - 128) * 64 + (128 + c.toNat % 64 - 128))
            :: utf8Dec rest = c :: utf8Dec rest
        have harith : (224 + c.toNat / 4096 - 224) * 4096 + (128 + c.toNat / 64 % 64 - 128) * 64
            + (128 + c.toNat % 64 - 128) = c.toNat := by
          omega
        rw [harith, hofnat]
      · have henc : utf8EncChar c = [240 + c.toNat / 262144, 128 + c.toNat / 4096 % 64,
            128 + c.toNat / 64 % 64, 128 + c.toNat % 64] := by
          unfold utf8EncChar
          rw [if_neg h1, if_neg h2, if_neg h3]
        rw [henc, List.cons_append, List.cons_append, List.cons_append, List.cons_append,
          List.nil_append, utf8Dec_cons, if_neg (by omega), if_neg (by omega),
          if_neg (by omega)]
        show Char.ofNat ((240 + c.toNat / 262144 - 240) * 262144
            + (128 + c.toNat / 4096 % 64 - 128) * 4096 + (128 + c.toNat / 64 % 64 - 128) * 64
            + (128 + c.toNat % 64 - 128)) :: utf8Dec rest = c :: utf8Dec rest
        have harith : (240 + c.toNat / 262144 - 240) * 262144
            + (128 + c.toNat / 4096 % 64 - 128) * 4096
            + (128 + c.toNat / 64 % 64 - 128) * 64 + (128 + c.toNat % 64 - 128) = c.toNat := by
          omega
        rw [harith, hofnat]

lemma utf8Dec_utf8Enc (l : List Char) : utf8Dec (utf8Enc l) = l := by
  induction l with
  | nil => rfl
  | cons c cs ih =>
    have : utf8Enc (c :: cs) = utf8EncChar c ++ utf8Enc cs := rfl
    rw [this, utf8Dec_encChar, ih]

lemma utf8Enc_lt (l : List Char) : ∀ b ∈ utf8Enc l, b < 256 := by
  induction l with
  | nil => simp [utf8Enc]
  | cons c cs ih =>
    intro b hb
    have : utf8Enc (c :: cs) = utf8EncChar c ++ utf8Enc cs := rfl
    rw [this] at hb
    rcases List.mem_append.mp hb with hb | hb
    · exact utf8EncChar_lt c b hb
    · exact ih b hb

lemma utf8Enc_ne_nil (l : List Char) (h : l ≠ []) : utf8Enc l ≠ [] := by
  rcases l with _ | ⟨c, cs⟩
  · exact absurd rfl h
  · have : utf8Enc (c :: cs) = utf8EncChar c ++ utf8Enc cs := rfl
    rw [this]
    simp [utf8EncChar_ne_nil c]

lemma str_ne_empty_iff_data (s : String) : s ≠ "" ↔ s.data ≠ [] := by
  rcases s with ⟨l⟩
  cases l <;> simp [String.ext_iff]

lemma b64decodeStr_encodeStr (s : String) : b64decodeStr (b64encodeStr s) = s := by
  unfold b64encodeStr b64decodeStr
  rw [show (⟨b64enc (utf8Enc s.data)⟩ : String).data = b64enc (utf8Enc s.data) from rfl]
  rw [b64_roundtrip (utf8Enc s.data) (utf8Enc_lt s.data), utf8Dec_utf8Enc]

lemma b64encodeStr_no_dot (s : String) : ∀ c ∈ (b64encodeStr s).data, c ≠ '.' := by
  intro c hc
  exact b64enc_no_dot (utf8Enc s.data) c hc

lemma b64encodeStr_ne_empty (s : String) (h : s ≠ "") : (b64encodeStr s).data ≠ [] := by
  exact b64enc_ne_nil _ (utf8Enc_ne_nil _ ((str_ne_empty_iff_data s).mp h))

lemma strEta (s : String) : (⟨s.data⟩ : String) = s := by
  rcases s with ⟨l⟩
  rfl

lemma list_isEmpty_false (l : List Char) (h : l ≠ []) : l.isEmpty = false := by
  cases l with
  | nil => exact absurd rfl h
  | cons c cs => rfl

lemma str_beq_empty_false (s : String) (h : s.data ≠ []) : (s == "") = false := by
  rw [beq_empty_eq]
  rcases hl : s.data with _ | ⟨c, cs⟩
  · exact absurd hl h
  · simp

lemma id_ne_empty_of_start (id : String) (h : strStartsWith id "nha_" = true) : id ≠ "" := by
  intro he
  rw [he] at h
  exact absurd h (by decide)

lemma payload_data_eq (id : String) (ts : Int) :
    (id ++ ":" ++ intRender ts).data = id.data ++ ':' :: (intRender ts).data := by
  rw [String.data_append, String.data_append]
  simp

lemma intRender_no_colon (ts : Int) (hts : 0 < ts) :
    ∀ x ∈ (intRender ts).data, x ≠ ':' := by
  rw [intRender_nonneg ts (le_of_lt hts)]
  intro x hx
  exact digit_ne_of x ':' (decRender_digits _ x hx) (by decide)

lemma parseIntDec_intRender (ts : Int) (hts : 0 < ts) :
    parseIntDec (intRender ts) = some ts := by
  rw [intRender_nonneg ts (le_of_lt hts), parseIntDec_decRender]
  congr 1
  omega

lemma payload_data_ne_nil (id : String) (ts : Int) :
    (id ++ ":" ++ intRender ts).data ≠ [] := by
  rw [payload_data_eq]
  simp

/-- Reduction of verifyToken on an unsigned token generated for a colon-free
challenge id: the parse pipeline recovers the id and the timestamp, and the
verdict is decided by the age, requireSecret, and secret checks alone. -/
lemma verifyToken_unsigned (E : Env) (id : String) (ts maxAgeMs nowMs : Int)
    (secret : Option String) (rs : Bool)
    (hstart : strStartsWith id "nha_" = true)
    (hcol : ∀ x ∈ id.data, x ≠ ':')
    (hts : 0 < ts) :
    verifyToken E (.str (b64encodeStr (id ++ ":" ++ intRender ts))) secret maxAgeMs rs nowMs
      = if decide (nowMs - ts ≥ maxAgeMs) then ⟨false, none⟩
        else if rs && !(optStrTruthy secret) then ⟨false, none⟩
        else if optStrTruthy secret then ⟨false, none⟩
        else ⟨true, some id⟩ := by
  have hpne : (id ++ ":" ++ intRender ts).data ≠ [] := payload_data_ne_nil id ts
  have hbne : (b64encodeStr (id ++ ":" ++ intRender ts)).data ≠ [] :=
    b64encodeStr_ne_empty _ ((str_ne_empty_iff_data _).mpr hpne)
  have h1 : ((b64encodeStr (id ++ ":" ++ intRender ts)) == "") = false :=
    str_beq_empty_false _ hbne
  have h2 : jsSplit '.' (b64encodeStr (id ++ ":" ++ intRender ts)).data
      = [(b64encodeStr (id ++ ":" ++ intRender ts)).data] :=
    jsSplit_no_sep _ _ (b64encodeStr_no_dot _)
  have h3 : (b64encodeStr (id ++ ":" ++ intRender ts)).data.isEmpty = false :=
    list_isEmpty_false _ hbne
  have h4 : b64decodeStr ⟨(b64encodeStr (id ++ ":" ++ intRender ts)).data⟩
      = id ++ ":" ++ intRender ts := by
    rw [strEta]
    exact b64decodeStr_encodeStr _
  have h5 : jsSplit ':' (id ++ ":" ++ intRender ts).data = [id.data, (intRender ts).data] := by
    rw [payload_data_eq, jsSplit_append_sep ':' id.data _ hcol,
      jsSplit_no_sep ':' _ (intRender_no_colon ts hts)]
  have hidne : (id == "") = false :=
    str_beq_empty_false _ ((str_ne_empty_iff_data _).mp (id_ne_empty_of_start id hstart))
  have h6 : parseIntDec (intRender ts) = some ts := parseIntDec_intRender ts hts
  have h7 : decide (ts ≤ 0) = false := decide_eq_false (not_le.mpr hts)
  simp only [verifyToken, h1, Bool.false_eq_true, if_false, h2, List.headD_cons, h3, h4, h5,
    List.getElem?_cons_succ, List.getElem?_nil, List.length_cons, List.length_nil,
    beq_self_eq_true, Bool.not_true, strEta, hidne, hstart, Bool.or_false, Bool.false_or,
    List.getD, List.get?_cons_succ, List.get?_cons_zero, Option.getD_some, h6, h7]

/-- Reduction of verifyToken on a signed token generated for a colon-free
challenge id: the parse pipeline recovers the id and the timestamp, and the
verdict is decided by the age, requireSecret, secret and signature checks. -/
lemma verifyToken_signed (E : Env) (id : String) (ts maxAgeMs nowMs : Int)
    (sigStr : String) (secret : Option String) (rs : Bool)
    (hstart : strStartsWith id "nha_" = true)
    (hcol : ∀ x ∈ id.data, x ≠ ':')
    (hts : 0 < ts) :
    verifyToken E (.str (b64encodeStr (id ++ ":" ++ intRender ts) ++ "." ++ sigStr))
        secret maxAgeMs rs nowMs
      = if decide (nowMs - ts ≥ maxAgeMs) then ⟨false, none⟩
        else if rs && !(optStrTruthy secret) then ⟨false, none⟩
        else if optStrTruthy secret then
          (if ((⟨(jsSplit '.' sigStr.data).headD []⟩ : String) == "") then ⟨false, none⟩
           else if safeCompare ⟨(jsSplit '.' sigStr.data).headD []⟩
               (hmacSign E (id ++ ":" ++ intRender ts) (secret.getD "") 32) then
             ⟨true, some id⟩
           else ⟨false, none⟩)
        else ⟨true, some id⟩ := by
  have hpne : (id ++ ":" ++ intRender ts).data ≠ [] := payload_data_ne_nil id ts
  have hbne : (b64encodeStr (id ++ ":" ++ intRender ts)).data ≠ [] :=
    b64encodeStr_ne_empty _ ((str_ne_empty_iff_data _).mpr hpne)
  have htd : (b64encodeStr (id ++ ":" ++ intRender ts) ++ "." ++ sigStr).data
      = (b64encodeStr (id ++ ":" ++ intRender ts)).data ++ '.' :: sigStr.data := by
    rw [String.data_append, String.data_append]
    simp
  have h1 : ((b64encodeStr (id ++ ":" ++ intRender ts) ++ "." ++ sigStr) == "") = false := by
    apply str_beq_empty_false
    rw [htd]
    simp
  have h2 : jsSplit '.' (b64encodeStr (id ++ ":" ++ intRender ts) ++ "." ++ sigStr).data
      = (b64encodeStr (id ++ ":" ++ intRender ts)).data :: jsSplit '.' sigStr.data := by
    rw [htd]
    exact jsSplit_append_sep '.' _ _ (b64encodeStr_no_dot _)
  have h3 : (b64encodeStr (id ++ ":" ++ intRender ts)).data.isEmpty = false :=
    list_isEmpty_false _ hbne
  have h4 : b64decodeStr ⟨(b64encodeStr (id ++ ":" ++ intRender ts)).data⟩
      = id ++ ":" ++ intRender ts := by
    rw [strEta]
    exact b64decodeStr_encodeStr _
  have h5 : jsSplit ':' (id ++ ":" ++ intRender ts).data = [id.data, (intRender ts).data] := by
    rw [payload_data_eq, jsSplit_append_sep ':' id.data _ hcol,
      jsSplit_no_sep ':' _ (intRender_no_colon ts hts)]
  have hidne : (id == "") = false :=
    str_beq_empty_false _ ((str_ne_empty_iff_data _).mp (id_ne_empty_of_start id hstart))
  have h6 : parseIntDec (intRender ts) = some ts := parseIntDec_intRender ts hts
  have h7 : decide (ts ≤ 0) = false := decide_eq_false (not_le.mpr hts)
  rcases hsp : jsSplit '.' sigStr.data with _ | ⟨sigSeg, more⟩
  · exact absurd hsp (jsSplit_ne_nil '.' sigStr.data)
  · simp only [verifyToken, h1, Bool.false_eq_true, if_false, h2, hsp, List.headD_cons, h3,
      h4, h5, List.getElem?_cons_succ, List.getElem?_cons_zero, List.length_cons,
      List.length_nil, beq_self_eq_true, Bool.not_true, strEta, hidne, hstart, Bool.or_false,
      Bool.false_or, List.getD, List.get?_cons_succ, List.get?_cons_zero, Option.getD_some,
      h6, h7]

/-- Reduction of verifyToken on any token whose first dot-segment is the
base64 payload of an id that itself contains a colon: the decoded payload
splits into more than two parts, so the verdict is the bare failure. -/
lemma verifyToken_colon (E : Env) (id : String) (ts : Int) (t : String)
    (secret : Option String) (maxAgeMs : Int) (rs : Bool) (nowMs : Int)
    (rest' : List (List Char))
    (hsplit : jsSplit '.' t.data = (b64encodeStr (id ++ ":" ++ intRender ts)).data :: rest')
    (htne : (t == "") = false)
    (hcol : ':' ∈ id.data) :
    verifyToken E (.str t) secret maxAgeMs rs nowMs = ⟨false, none⟩ := by
  have hpne : (id ++ ":" ++ intRender ts).data ≠ [] := payload_data_ne_nil id ts
  have hbne : (b64encodeStr (id ++ ":" ++ intRender ts)).data ≠ [] :=
    b64encodeStr_ne_empty _ ((str_ne_empty_iff_data _).mpr hpne)
  have h3 : (b64encodeStr (id ++ ":" ++ intRender ts)).data.isEmpty = false :=
    list_isEmpty_false _ hbne
  have h4 : b64decodeStr ⟨(b64encodeStr (id ++ ":" ++ intRender ts)).data⟩
      = id ++ ":" ++ intRender ts := by
    rw [strEta]
    exact b64decodeStr_encodeStr _
  have hlen : ((jsSplit ':' (id ++ ":" ++ intRender ts).data).length == 2) = false := by
    rw [jsSplit_length, payload_data_eq, List.count_append, List.count_cons]
    have hpos : 0 < id.data.count ':' := List.count_pos_iff_mem.mpr hcol
    rw [beq_eq_false_iff_ne]
    simp only [beq_self_eq_true, if_true]
    omega
  simp only [verifyToken, htne, Bool.false_eq_true, if_false, hsplit, List.headD_cons, h3,
    h4, hlen, Bool.not_false, if_true]

lemma generateToken_ok_unsigned (E : Env) (id : String) (secret : Option String) (ts : Int)
    (hstart : strStartsWith id "nha_" = true) (hsec : optStrTruthy secret = false) :
    generateToken E (.str id) secret ts = .ok (b64encodeStr (id ++ ":" ++ intRender ts)) := by
  have hidne : (id == "") = false :=
    str_beq_empty_false _ ((str_ne_empty_iff_data _).mp (id_ne_empty_of_start id hstart))
  simp [generateToken, hidne, hstart, hsec]

lemma generateToken_ok_signed (E : Env) (id : String) (secret : Option String) (ts : Int)
    (hstart : strStartsWith id "nha_" = true) (hsec : optStrTruthy secret = true) :
    generateToken E (.str id) secret ts
      = .ok (b64encodeStr (id ++ ":" ++ intRender ts) ++ "."
          ++ hmacSign E (id ++ ":" ++ intRender ts) (secret.getD "") 32) := by
  have hidne : (id == "") = false :=
    str_beq_empty_false _ ((str_ne_empty_iff_data _).mp (id_ne_empty_of_start id hstart))
  simp [generateToken, hidne, hstart, hsec]

lemma generateToken_ok_start (E : Env) (id : String) (secret : Option String) (ts : Int)
    (tok : String) (hgen : generateToken E (.str id) secret ts = .ok tok) :
    strStartsWith id "nha_" = true := by
  by_cases hc : (id == "" || !(strStartsWith id "nha_")) = true
  · rw [generateToken] at hgen
    rw [if_pos hc] at hgen
    cases hgen
  · simp only [Bool.or_eq_true, beq_iff_eq, Bool.not_eq_true'] at hc
    push_neg at hc
    simpa using hc.2

/-- C9: every challengeId that starts with nha_ and contains a colon is
accepted by generateToken, which returns a token; but verifyToken on that
token returns the invalid verdict for every secret, maximum age,
requireSecret flag and verification time, because the decoded payload splits
on the colon into more than two parts. -/
theorem colon_id_roundtrip_fails (E : Env) (id : String) (secret : Option String) (ts : Int)
    (hstart : strStartsWith id "nha_" = true)
    (hcol : ':' ∈ id.data) :
    (∃ tok, generateToken E (.str id) secret ts = .ok tok)
    ∧ ∀ (tok : String) (s' : Option String) (maxAgeMs : Int) (rs : Bool) (nowMs : Int),
        generateToken E (.str id) secret ts = .ok tok →
        verifyToken E (.str tok) s' maxAgeMs rs nowMs = ⟨false, none⟩ := by
  have hpne : (id ++ ":" ++ intRender ts).data ≠ [] := payload_data_ne_nil id ts
  have hbne : (b64encodeStr (id ++ ":" ++ intRender ts)).data ≠ [] :=
    b64encodeStr_ne_empty _ ((str_ne_empty_iff_data _).mpr hpne)
  cases hsec : optStrTruthy secret with
  | false =>
    refine ⟨⟨_, generateToken_ok_unsigned E id secret ts hstart hsec⟩, ?_⟩
    intro tok s' maxAgeMs rs nowMs hgen
    rw [generateToken_ok_unsigned E id secret ts hstart hsec] at hgen
    obtain rfl : b64encodeStr (id ++ ":" ++ intRender ts) = tok := by
      injection hgen
    refine verifyToken_colon E id ts _ s' maxAgeMs rs nowMs [] ?_ ?_ hcol
    · exact jsSplit_no_sep '.' _ (b64encodeStr_no_dot _)
    · exact str_beq_empty_false _ hbne
  | true =>
    refine ⟨⟨_, generateToken_ok_signed E id secret ts hstart hsec⟩, ?_⟩
    intro tok s' maxAgeMs rs nowMs hgen
    rw [generateToken_ok_signed E id secret ts hstart hsec] at hgen
    obtain rfl : b64encodeStr (id ++ ":" ++ intRender ts) ++ "."
        ++ hmacSign E (id ++ ":" ++ intRender ts) (secret.getD "") 32 = tok := by
      injection hgen
    have htd : (b64encodeStr (id ++ ":" ++ intRender ts) ++ "."
        ++ hmacSign E (id ++ ":" ++ intRender ts) (secret.getD "") 32).data
        = (b64encodeStr (id ++ ":" ++ intRender ts)).data ++ '.'
          :: (hmacSign E (id ++ ":" ++ intRender ts) (secret.getD "") 32).data := by
      rw [String.data_append, String.data_append]
      simp
    refine verifyToken_colon E id ts _ s' maxAgeMs rs nowMs
      (jsSplit '.' (hmacSign E (id ++ ":" ++ intRender ts) (secret.getD "") 32).data) ?_ ?_ hcol
    · rw [htd]
      exact jsSplit_append_sep '.' _ _ (b64encodeStr_no_dot _)
    · apply str_beq_empty_false
      rw [htd]
      simp

/-- Witness for C9 at a concrete input: the id nha_a:b is accepted by
generateToken, and the token it returns verifies to the invalid verdict. -/
theorem colon_id_roundtrip_fails_witness :
    (strStartsWith "nha_a:b" "nha_" = true ∧ ':' ∈ "nha_a:b".data)
    ∧ verifyToken envW (.str (b64encodeStr ("nha_a:b" ++ ":" ++ intRender 5)))
        none 300000 false 6 = ⟨false, none⟩ := by
  refine ⟨⟨by decide, by decide⟩, ?_⟩
  exact (colon_id_roundtrip_fails envW "nha_a:b" none 5 (by decide) (by decide)).2
    _ none 300000 false 6
    (generateToken_ok_unsigned envW "nha_a:b" none 5 (by decide) (by decide))

/-- Counterexample to C6 as stated: the challengeId nha_a:b is accepted by
generateToken (it starts with nha_), yet the unsigned token issued for it at
time 5 and verified at the same instant, well within the default maximum
age, is rejected rather than returned as valid with that id. -/
theorem token_roundtrip_counterexample :
    generateToken envW (.str "nha_a:b") none 5
      = .ok (b64encodeStr ("nha_a:b" ++ ":" ++ intRender 5))
    ∧ verifyToken envW (.str (b64encodeStr ("nha_a:b" ++ ":" ++ intRender 5)))
        none 300000 false 5 = ⟨false, none⟩ := by
  constructor
  · rfl
  · decide

/-- C6 as amended: for every challengeId accepted by generateToken that
contains no colon character, issuing a token without a secret and verifying
it without a secret within the maximum age returns valid true with the
issued id. -/
theorem token_roundtrip_no_secret (E : Env) (id : String) (ts maxAgeMs nowMs : Int)
    (hstart : strStartsWith id "nha_" = true)
    (hcol : ∀ x ∈ id.data, x ≠ ':')
    (hts : 0 < ts)
    (hage : nowMs - ts < maxAgeMs) :
    generateToken E (.str id) none ts = .ok (b64encodeStr (id ++ ":" ++ intRender ts))
    ∧ verifyToken E (.str (b64encodeStr (id ++ ":" ++ intRender ts))) none maxAgeMs false nowMs
      = ⟨true, some id⟩ := by
  refine ⟨generateToken_ok_unsigned E id none ts hstart rfl, ?_⟩
  rw [verifyToken_unsigned E id ts maxAgeMs nowMs none false hstart hcol hts]
  have h1 : decide (nowMs - ts ≥ maxAgeMs) = false := decide_eq_false (not_le.mpr hage)
  simp [h1, optStrTruthy]

/-- Witness for the amended C6 at a concrete input: the colon-free id nha_x
issued at time 5 round-trips to valid with the same id at time 6. -/
theorem token_roundtrip_no_secret_witness :
    (strStartsWith "nha_x" "nha_" = true ∧ (0 : Int) < 5 ∧ (6 : Int) - 5 < 100)
    ∧ generateToken envW (.str "nha_x") none 5
        = .ok (b64encodeStr ("nha_x" ++ ":" ++ intRender 5))
    ∧ verifyToken envW (.str (b64encodeStr ("nha_x" ++ ":" ++ intRender 5)))
        none 100 false 6 = ⟨true, some "nha_x"⟩ :=
  ⟨⟨by decide, by decide, by decide⟩,
    token_roundtrip_no_secret envW "nha_x" 5 100 6 (by decide) (by decide) (by decide)
      (by decide)⟩

/-- C5: for every token produced by generateToken and every maximum age,
verifyToken accepts the token only when the verification time minus the
embedded issuance timestamp is strictly less than maxAgeMs; an age exactly
equal to maxAgeMs is rejected, and with maxAgeMs zero the token is invalid
even when issued and verified with the same secret in the same instant. -/
theorem verifyToken_age_strict (E : Env) (id : String) (secret : Option String)
    (ts : Int) (rs : Bool) (tok : String)
    (hgen : generateToken E (.str id) secret ts = .ok tok)
    (hts : 0 < ts) :
    (∀ (s' : Option String) (maxAgeMs nowMs : Int),
        ((verifyToken E (.str tok) s' maxAgeMs rs nowMs).valid = true →
          nowMs - ts < maxAgeMs)
        ∧ (nowMs - ts = maxAgeMs →
            (verifyToken E (.str tok) s' maxAgeMs rs nowMs).valid = false))
    ∧ (verifyToken E (.str tok) secret 0 rs ts).valid = false := by
  have hstart := generateToken_ok_start E id secret ts tok hgen
  have hbne : (b64encodeStr (id ++ ":" ++ intRender ts)).data ≠ [] :=
    b64encodeStr_ne_empty _ ((str_ne_empty_iff_data _).mpr (payload_data_ne_nil id ts))
  have key : ∀ (s' : Option String) (m n : Int), m ≤ n - ts →
      (verifyToken E (.str tok) s' m rs n).valid = false := by
    intro s' m n hage
    by_cases hcol : ':' ∈ id.data
    · cases hsec : optStrTruthy secret with
      | false =>
        rw [generateToken_ok_unsigned E id secret ts hstart hsec] at hgen
        obtain rfl : b64encodeStr (id ++ ":" ++ intRender ts) = tok := by injection hgen
        rw [verifyToken_colon E id ts _ s' m rs n []
          (jsSplit_no_sep '.' _ (b64encodeStr_no_dot _)) (str_beq_empty_false _ hbne) hcol]
      | true =>
        rw [generateToken_ok_signed E id secret ts hstart hsec] at hgen
        obtain rfl : b64encodeStr (id ++ ":" ++ intRender ts) ++ "."
            ++ hmacSign E (id ++ ":" ++ intRender ts) (secret.getD "") 32 = tok := by
          injection hgen
        have htd : (b64encodeStr (id ++ ":" ++ intRender ts) ++ "."
            ++ hmacSign E (id ++ ":" ++ intRender ts) (secret.getD "") 32).data
            = (b64encodeStr (id ++ ":" ++ intRender ts)).data ++ '.'
              :: (hmacSign E (id ++ ":" ++ intRender ts) (secret.getD "") 32).data := by
          rw [String.data_append, String.data_append]
          simp
        rw [verifyToken_colon E id ts _ s' m rs n _
          (by rw [htd]; exact jsSplit_append_sep '.' _ _ (b64encodeStr_no_dot _))
          (by apply str_beq_empty_false; rw [htd]; simp) hcol]
    · have hcol' : ∀ x ∈ id.data, x ≠ ':' := fun x hx he => hcol (he ▸ hx)
      cases hsec : optStrTruthy secret with
      | false =>
        rw [generateToken_ok_unsigned E id secret ts hstart hsec] at hgen
        obtain rfl : b64encodeStr (id ++ ":" ++ intRender ts) = tok := by injection hgen
        rw [verifyToken_unsigned E id ts m n s' rs hstart hcol' hts]
        simp [decide_eq_true hage]
      | true =>
        rw [generateToken_ok_signed E id secret ts hstart hsec] at hgen
        obtain rfl : b64encodeStr (id ++ ":" ++ intRender ts) ++ "."
            ++ hmacSign E (id ++ ":" ++ intRender ts) (secret.getD "") 32 = tok := by
          injection hgen
        rw [verifyToken_signed E id ts m n _ s' rs hstart hcol' hts]
        simp [decide_eq_true hage]
  refine ⟨?_, key secret 0 ts (by omega)⟩
  intro s' m n
  constructor
  · intro hv
    by_contra hlt
    push_neg at hlt
    rw [key s' m n hlt] at hv
    exact Bool.false_ne_true hv
  · intro heq
    exact key s' m n (le_of_eq heq.symm)

/-- Witness for C5 at a concrete input: a token issued without a secret at
time 5 is already invalid at time 5 when the maximum age is zero. -/
theorem verifyToken_age_strict_witness :
    ((0 : Int) < 5 ∧ generateToken envW (.str "nha_x") none 5
        = .ok (b64encodeStr ("nha_x" ++ ":" ++ intRender 5)))
    ∧ (verifyToken envW (.str (b64encodeStr ("nha_x" ++ ":" ++ intRender 5)))
        none 0 false 5).valid = false :=
  ⟨⟨by decide, by rfl⟩,
    (verifyToken_age_strict envW "nha_x" none 5 false _
      (generateToken_ok_unsigned envW "nha_x" none 5 (by decide) (by decide))
      (by decide)).2⟩

/-- Witness for C7 at a concrete input: a non-string token is mapped by
verifyToken to the bare tagged failure. -/
theorem generateToken_throws_iff_witness :
    verifyToken envW .undef none 1 false 0 = ⟨false, none⟩ :=
  (generateToken_throws_iff envW).2.2.1 .undef (fun s h => JSVal.noConfusion h) none 1 false 0

end NHA
